import Mathlib

/-!
Verification of the SVMS sonar mapping system (`svms/main.py`) against its
natural-language specification.

The Python source is shallowly embedded: real-valued samples are modelled as
rationals (`ℚ`) wherever the computations are algebraic, and as reals (`ℝ`)
where the code applies transcendental functions (`cos`, `sin`, `π`).  Fallible
operations (numpy/scipy calls that raise, the `plot` precondition check)
return `Option`.
-/

namespace SVMS

/-- Index a list of rationals at an integer position, yielding `0` outside the
list.  This is the usual zero-padding convention under which the linear
cross-correlation sum is written. -/
def getZ (l : List ℚ) (i : ℤ) : ℚ :=
  if 0 ≤ i then l.getD i.toNat 0 else 0

/-- The linear cross-correlation of `a` against `v` at integer lag `ℓ`:
`Σ_j a[j] · v[j - ℓ]` (out-of-range reference samples count as zero).  A copy
of `v` delayed by `d ≥ 0` samples inside `a` contributes at lag `d`. -/
def corrLag (a v : List ℚ) (ℓ : ℤ) : ℚ :=
  ((List.range a.length).map (fun j => a.getD j 0 * getZ v ((j : ℤ) - ℓ))).sum

/-- Model of `np.correlate(a, v, mode="full")`: output length `len(a) + len(v) - 1`,
entry `i` holding the correlation at lag `i - (len(v) - 1)` (numpy's
documented full-mode output, entries ordered from the most negative lag
`-(len(v)-1)` up to lag `len(a)-1`). -/
def correlateFull (a v : List ℚ) : List ℚ :=
  (List.range (a.length + v.length - 1)).map
    (fun i : ℕ => corrLag a v ((i : ℤ) - ((v.length : ℤ) - 1)))

/-- The retained correlation sequence of `process_signal`:
`corr = np.correlate(response, signal, mode="full"); corr = corr[len(corr) // 2 :]`. -/
def retained (response signal : List ℚ) : List ℚ :=
  (correlateFull response signal).drop ((response.length + signal.length - 1) / 2)

/-- Model of `np.max` on a list of samples (the code only applies it to non-empty
arrays; on `[]` numpy raises, here the value is irrelevant and set to `0`). -/
def npMax : List ℚ → ℚ
  | [] => 0
  | a :: t => t.foldl max a

/-- The inner plateau scan of scipy's `_local_maxima_1d`: starting at `j`,
advance while the bound `iMax` is not reached and the sample still equals the
candidate peak value `v`; returns the first index where the scan stops.  The
`fuel` argument makes the recursion structural; any `fuel ≥ iMax - j` gives
the exact loop behaviour. -/
def plateauAhead (x : List ℚ) (v : ℚ) (iMax : ℕ) : ℕ → ℕ → ℕ
  | 0, j => j
  | fuel + 1, j => if j < iMax ∧ x.getD j 0 = v then plateauAhead x v iMax fuel (j + 1) else j

/-- The main loop of scipy's `_local_maxima_1d` (the peak detector behind
`scipy.signal.find_peaks`): scan `i` from `1` to `iMax - 1` (`iMax =
len(x) - 1`, so the first and last sample are never peaks); on a strict rise
`x[i-1] < x[i]`, scan ahead over the plateau of samples equal to `x[i]`; if
the sample after the plateau is strictly smaller, emit the plateau midpoint
`(i + (i_ahead - 1)) / 2` and resume after the plateau.  `fuel ≥ iMax - i`
gives the exact loop behaviour. -/
def localMaximaAux (x : List ℚ) (iMax : ℕ) : ℕ → ℕ → List ℕ
  | 0, _ => []
  | fuel + 1, i =>
    if i < iMax then
      if x.getD (i - 1) 0 < x.getD i 0 then
        let iA := plateauAhead x (x.getD i 0) iMax iMax (i + 1)
        if x.getD iA 0 < x.getD i 0 then
          (i + (iA - 1)) / 2 :: localMaximaAux x iMax fuel (iA + 1)
        else
          localMaximaAux x iMax fuel (i + 1)
      else
        localMaximaAux x iMax fuel (i + 1)
    else []

/-- All local maxima found by scipy's `_local_maxima_1d` on `x`. -/
def localMaxima (x : List ℚ) : List ℕ :=
  localMaximaAux x (x.length - 1) x.length 1

/-- Model of `scipy.signal.find_peaks(x, height=h)`: the local maxima of
`_local_maxima_1d` whose sample value is at least `h` (scipy keeps a peak
when `hmin <= peak_height`). -/
def find_peaks (x : List ℚ) (h : ℚ) : List ℕ :=
  (localMaxima x).filter (fun k => decide (h ≤ x.getD k 0))

/-- Model of `SonarVisionMappingSystem.process_signal`, with the session state it reads
(`self.signal`, `self.fs`) passed explicitly.  `none` models the `ValueError`
numpy raises from `np.correlate` when either input array is empty; otherwise
the correlation is halved, peaks above `0.1 * np.max(corr)` are detected, and
each peak index `k` becomes the distance `(k / fs) * 343 / 2`. -/
def process_signal (signal : List ℚ) (fs : ℚ) (response : List ℚ) : Option (List ℚ) :=
  if response.isEmpty || signal.isEmpty then none
  else
    let corr := retained response signal
    let peaks := find_peaks corr ((1 / 10) * npMax corr)
    some (peaks.map (fun k : ℕ => ((k : ℚ) / fs) * 343 / 2))

/-- Peak selection as worded by the specification, with the height condition
amended from "exceeds" to "is at least": the indices `k` of the sequence `x`
that are not its first or last index, are strict local maxima
(`x[k-1] < x[k]` and `x[k+1] < x[k]`), and whose value is at least the
threshold `h`.  Listed in ascending index order. -/
def specPeaks (x : List ℚ) (h : ℚ) : List ℕ :=
  (List.range x.length).filter (fun k =>
    decide (0 < k) && decide (k + 1 < x.length) &&
    (decide (h ≤ x.getD k 0) &&
      (decide (x.getD (k - 1) 0 < x.getD k 0) && decide (x.getD (k + 1) 0 < x.getD k 0))))

/-- Peak selection exactly as the claim states it: strict local maxima, not at
the boundary, whose value strictly exceeds the threshold `h`. -/
def specPeaksStrict (x : List ℚ) (h : ℚ) : List ℕ :=
  (List.range x.length).filter (fun k =>
    decide (0 < k) && decide (k + 1 < x.length) &&
    (decide (h < x.getD k 0) &&
      (decide (x.getD (k - 1) 0 < x.getD k 0) && decide (x.getD (k + 1) 0 < x.getD k 0))))

/-- Python's `int()` applied to a real number: truncation toward zero. -/
def pyInt (q : ℚ) : ℤ :=
  if 0 ≤ q then ⌊q⌋ else -⌊-q⌋

/-- The assignment `self.num_samples = int(fs * duration)` from `__init__`. -/
def num_samples (fs duration : ℚ) : ℤ :=
  pyInt (fs * duration)

/-- Model of `np.linspace(a, b, n)` (default `endpoint=True`): `n` evenly spaced values
from `a` to `b` inclusive; step `(b - a) / (n - 1)`; for `n = 1` the single
value `a`. -/
def linspace {α : Type*} [Field α] (a b : α) (n : ℕ) : List α :=
  if n = 1 then [a]
  else (List.range n).map (fun i : ℕ => a + (b - a) * (i : α) / ((n : α) - 1))

/-- Model of `np.linspace(a, b, n, endpoint=False)`: `n` evenly spaced values starting
at `a` with step `(b - a) / n`, the endpoint `b` excluded. -/
def linspaceEF {α : Type*} [Field α] (a b : α) (n : ℕ) : List α :=
  (List.range n).map (fun i : ℕ => a + (b - a) * (i : α) / (n : α))

/-- Model of `generate_chirp_signal`: time instants `t = np.linspace(0, duration,
num_samples)` and samples `scipy.signal.chirp(t, f0, f1, t1=duration,
method="linear")`, i.e. `cos(2π(f0·t + (f1 - f0)·t²/(2·duration)))`.  This
definition gives the sample values on the non-raising path only; the two ways
the call can raise — `np.linspace` rejecting a negative sample count, and
scipy's `chirp` dividing by `float(duration) = 0` when computing
`beta = (f1 - f0) / t1` — are modelled at the `construct` level. -/
noncomputable def generate_chirp_signal (fs duration f0 f1 : ℚ) : List ℝ :=
  (linspace (0 : ℚ) duration (num_samples fs duration).toNat).map
    (fun t : ℚ => Real.cos (2 * Real.pi *
      ((f0 : ℝ) * (t : ℝ) + ((f1 : ℝ) - (f0 : ℝ)) * (t : ℝ) ^ 2 / (2 * (duration : ℝ)))))

/-- The grid `self.horizontal_angles = np.linspace(0, 2π, num_directions, endpoint=False)`. -/
noncomputable def horizontal_angles (n : ℕ) : List ℝ :=
  linspaceEF 0 (2 * Real.pi) n

/-- The grid `self.vertical_angles = np.linspace(-π/4, π/4, elevation_angles)`. -/
noncomputable def vertical_angles (m : ℕ) : List ℝ :=
  linspace (-(Real.pi / 4)) (Real.pi / 4) m

/-- Model of `SonarVisionMappingSystem.__init__`: assigns the parameters, computes
`num_samples = int(fs * duration)`, generates the chirp signal and the two
angle grids.  There is no parameter validation, but two calls inside
`generate_chirp_signal` can raise, and `none` models both:
`np.linspace(0, duration, num_samples)` raises `ValueError` exactly when the
sample count is negative, and `scipy.signal.chirp` computes
`beta = (f1 - f0) / t1` after `t1 = float(t1)` with `t1 = duration` — a
pure-Python float division that raises `ZeroDivisionError` whenever
`duration = 0`, for every `f0`, `f1`, before the time samples are touched.
The two conditions are mutually exclusive (`duration = 0` forces
`num_samples = 0`), and the two angle-grid `np.linspace` calls use the
nonnegative counts `num_directions` and `elevation_angles` and cannot
raise. -/
noncomputable def construct (fs duration f0 f1 : ℚ) (num_directions elevation_angles : ℕ) :
    Option (List ℝ × List ℝ × List ℝ) :=
  if num_samples fs duration < 0 ∨ duration = 0 then none
  else some (generate_chirp_signal fs duration f0 f1,
             horizontal_angles num_directions,
             vertical_angles elevation_angles)

/-- The body of the projection loop in `plot_3d_mapping`:
`x = d·cos(v)·cos(h)`, `y = d·cos(v)·sin(h)`, `z = d·sin(v)`. -/
noncomputable def project (r h v : ℝ) : ℝ × ℝ × ℝ :=
  (r * Real.cos v * Real.cos h, r * Real.cos v * Real.sin h, r * Real.sin v)

/-- Model of `plot_3d_mapping`, with the session's `self.distances` passed explicitly
and the handoff to matplotlib modelled as returning the flattened point
sequence.  `none` models the `ValueError("No distances calculated. ...")`
raised when `self.distances` is empty. -/
noncomputable def plot_3d_mapping (distances : List (List ℚ × ℝ × ℝ)) :
    Option (List (ℝ × ℝ × ℝ)) :=
  if distances.isEmpty then none
  else some (distances.flatMap (fun s => s.1.map (fun r => project (r : ℚ) s.2.1 s.2.2)))

/-- The sequence of `(h_angle, v_angle)` pairs visited by the nested loop of
`collect_data`: vertical angles as the outer loop, horizontal angles as the
inner loop, each in stored order. -/
def scanPairs {α : Type*} (vA hA : List α) : List (α × α) :=
  vA.flatMap (fun v => hA.map (fun h => (h, v)))

/-- The loop body of `collect_data` over the remaining angle pairs: the `n`-th
call of `record_response` (hardware input, modelled by the oracle `record`)
yields the response for the `n`-th visited pair; `process_signal` turns it
into distances and `(distances, h_angle, v_angle)` is appended.  A
`process_signal` failure propagates (`none`). -/
def collect_go {α : Type*} (sig : List ℚ) (fs : ℚ) (record : ℕ → List ℚ) :
    List (α × α) → ℕ → Option (List (List ℚ × α × α))
  | [], _ => some []
  | p :: rest, n =>
    match process_signal sig fs (record n) with
    | none => none
    | some d => (collect_go sig fs record rest (n + 1)).map (fun l => (d, p.1, p.2) :: l)

/-- Model of `collect_data`, with the session state it reads passed explicitly. -/
def collect_data {α : Type*} (sig : List ℚ) (fs : ℚ) (vA hA : List α)
    (record : ℕ → List ℚ) : Option (List (List ℚ × α × α)) :=
  collect_go sig fs record (scanPairs vA hA) 0

/-- The mutable state of a `SonarVisionMappingSystem` instance that
`process_signal` can see (samples of the ranging pipeline modelled as `ℚ`,
angles as `ℝ`). -/
structure SessionState where
  fs : ℚ
  duration : ℚ
  f0 : ℚ
  f1 : ℚ
  num_samples : ℤ
  num_directions : ℕ
  elevation_angles : ℕ
  signal : List ℚ
  responses : List (List ℚ)
  distances : List (List ℚ × ℝ × ℝ)
  horizontal_angles : List ℝ
  vertical_angles : List ℝ

/-- The method view of `process_signal`: a map from the receiver state and the
`response` argument to the returned distances and the state after the call.
The body reads `self.signal` and `self.fs` and assigns no field. -/
def process_signal_method (st : SessionState) (response : List ℚ) :
    Option (List ℚ) × SessionState :=
  (process_signal st.signal st.fs response, st)

/-! ## Supporting lemmas -/

theorem le_foldl_max (t : List ℚ) (a : ℚ) : a ≤ t.foldl max a := by
  induction t generalizing a with
  | nil => exact le_refl a
  | cons b t ih => exact le_trans (le_max_left a b) (ih (max a b))

theorem foldl_max_mem (t : List ℚ) (a : ℚ) : t.foldl max a = a ∨ t.foldl max a ∈ t := by
  induction t generalizing a with
  | nil => exact Or.inl rfl
  | cons b t ih =>
    rcases ih (max a b) with h | h
    · rcases max_choice a b with hm | hm
      · exact Or.inl (by rw [List.foldl_cons, h, hm])
      · exact Or.inr (by rw [List.foldl_cons, h, hm]; exact List.mem_cons_self b t)
    · exact Or.inr (List.mem_cons_of_mem b h)

theorem mem_le_foldl_max (t : List ℚ) (a c : ℚ) (hc : c ∈ t) : c ≤ t.foldl max a := by
  induction t generalizing a with
  | nil => cases hc
  | cons b t ih =>
    rcases List.mem_cons.mp hc with rfl | hc
    · exact le_trans (le_max_right a c) (le_foldl_max t (max a c))
    · exact ih (max a b) hc

/-- The value `npMax` of a non-empty list is an element and an upper bound, so it is the
maximum (it models `np.max`). -/
theorem npMax_spec (l : List ℚ) (hl : l ≠ []) : npMax l ∈ l ∧ ∀ a ∈ l, a ≤ npMax l := by
  match l with
  | a :: t =>
    refine ⟨?_, ?_⟩
    · rcases foldl_max_mem t a with h | h
      · exact List.mem_cons.mpr (Or.inl (by simpa [npMax] using h))
      · exact List.mem_cons.mpr (Or.inr (by simpa [npMax] using h))
    · intro c hc
      rcases List.mem_cons.mp hc with rfl | hc
      · exact le_foldl_max t c
      · exact mem_le_foldl_max t a c hc

/-- Unfolding `process_signal` when neither array is empty. -/
theorem process_signal_eq (signal response : List ℚ) (fs : ℚ)
    (hs : signal ≠ []) (hr : response ≠ []) :
    process_signal signal fs response =
      some ((find_peaks (retained response signal)
              ((1 / 10) * npMax (retained response signal))).map
            (fun k : ℕ => ((k : ℚ) / fs) * 343 / 2)) := by
  simp [process_signal, List.isEmpty_iff, hs, hr]

/-! ## C10: `process_signal` is state-pure -/

/-- C10 (confirmed).  `process_signal` never modifies session state: the state
after the call is identical to the state before it, and the returned ranges
depend only on the `response` argument together with the stored reference
signal and sample rate (any two states agreeing on `signal` and `fs` produce
the same result for the same response). -/
theorem process_signal_method_pure (st : SessionState) (response : List ℚ) :
    (process_signal_method st response).2 = st ∧
    ∀ st' : SessionState, st'.signal = st.signal → st'.fs = st.fs →
      (process_signal_method st' response).1 = (process_signal_method st response).1 := by
  refine ⟨rfl, ?_⟩
  intro st' h1 h2
  simp [process_signal_method, h1, h2]

/-- Witness for C10 at a concrete state and response. -/
theorem process_signal_method_pure_witness :
    (process_signal_method
        ⟨1, 1, 5, 5, 1, 1, 1, [1], [], [], [], []⟩ [0, 1]).2 =
      ⟨1, 1, 5, 5, 1, 1, 1, [1], [], [], [], []⟩ ∧
    (process_signal_method
        ⟨1, 2, 7, 7, 2, 2, 2, [1], [[0]], [], [], []⟩ [0, 1]).1 =
      (process_signal_method
        ⟨1, 1, 5, 5, 1, 1, 1, [1], [], [], [], []⟩ [0, 1]).1 := by
  have h := process_signal_method_pure ⟨1, 1, 5, 5, 1, 1, 1, [1], [], [], [], []⟩ [0, 1]
  exact ⟨h.1, h.2 ⟨1, 2, 7, 7, 2, 2, 2, [1], [[0]], [], [], []⟩ rfl rfl⟩

/-! ## C7: spherical projection -/

/-- C7 (confirmed).  The projection of one range estimate at angles `(h, v)`
is the single point `(r·cos v·cos h, r·cos v·sin h, r·sin v)`; for `r ≥ 0`
its Euclidean norm is exactly `r`, and `r = 0` projects to the origin. -/
theorem project_spec (r h v : ℝ) (hr : 0 ≤ r) :
    project r h v = (r * Real.cos v * Real.cos h, r * Real.cos v * Real.sin h,
      r * Real.sin v) ∧
    Real.sqrt ((project r h v).1 ^ 2 + (project r h v).2.1 ^ 2 + (project r h v).2.2 ^ 2)
      = r ∧
    project 0 h v = (0, 0, 0) := by
  refine ⟨rfl, ?_, by simp [project]⟩
  have h1 := Real.sin_sq_add_cos_sq h
  have h2 := Real.sin_sq_add_cos_sq v
  have key : (project r h v).1 ^ 2 + (project r h v).2.1 ^ 2 + (project r h v).2.2 ^ 2
      = r ^ 2 := by
    simp only [project]
    linear_combination (r ^ 2 * Real.cos v ^ 2) * h1 + r ^ 2 * h2
  rw [key]
  exact Real.sqrt_sq hr

/-- Witness for C7 at `r = 2`, `h = 0`, `v = 0`. -/
theorem project_spec_witness :
    Real.sqrt ((project 2 0 0).1 ^ 2 + (project 2 0 0).2.1 ^ 2 + (project 2 0 0).2.2 ^ 2)
      = 2 :=
  (project_spec 2 0 0 (by norm_num)).2.1

/-! ## C8: `plot_3d_mapping` precondition -/

/-- C8 (corrected).  `plot_3d_mapping` fails exactly when the collected
`ScanSample` sequence (`self.distances`) is empty — not when the point
sequence is empty — and otherwise hands over the complete flattened point
sequence (one point per collected range estimate). -/
theorem plot_3d_mapping_spec (d : List (List ℚ × ℝ × ℝ)) :
    (plot_3d_mapping d = none ↔ d = []) ∧
    ∀ pts, plot_3d_mapping d = some pts →
      pts.length = (d.map (fun s => s.1.length)).sum := by
  constructor
  · by_cases hd : d = [] <;> simp [plot_3d_mapping, List.isEmpty_iff, hd]
  · intro pts h
    by_cases hd : d = []
    · subst hd; simp [plot_3d_mapping] at h
    · rw [plot_3d_mapping, if_neg (by simpa [List.isEmpty_iff] using hd)] at h
      rw [← Option.some_inj.mp h]
      simp [List.length_flatMap, Function.comp_def]

/-- Counterexample to C8 as stated: one `ScanSample` was collected but it
carries an empty range set, so the point sequence handed to the sink is
empty, yet the operation does not fail — it hands over the empty sequence. -/
theorem plot_3d_mapping_counterexample :
    plot_3d_mapping [([], 0, 0)] = some [] := by
  simp [plot_3d_mapping]

/-- Witness for C8 on a one-sample, one-range state. -/
theorem plot_3d_mapping_spec_witness :
    ([project ((2 : ℚ) : ℝ) 0 0] : List (ℝ × ℝ × ℝ)).length =
      (([([(2 : ℚ)], (0 : ℝ), (0 : ℝ))].map (fun s => s.1.length)).sum) :=
  (plot_3d_mapping_spec [([(2 : ℚ)], (0 : ℝ), (0 : ℝ))]).2
    [project ((2 : ℚ) : ℝ) 0 0] (by simp [plot_3d_mapping])

/-! ## C5: construction-time behaviour -/

/-- C5 (corrected).  `__init__` performs no parameter validation and never
raises `InvalidParameters`: construction fails in exactly two cases — when the
computed sample count `int(fs * duration)` is negative (numpy rejects the
negative count in `np.linspace`), and when `duration = 0` (scipy's `chirp`
raises `ZeroDivisionError` computing `beta = (f1 - f0) / float(duration)`).
Every other parameter combination — including `fs ≤ 0` with nonnegative
product, `duration < 0` with nonnegative product, and `num_samples < 2` —
constructs successfully. -/
theorem construct_spec (fs duration f0 f1 : ℚ) (nd ea : ℕ) :
    (construct fs duration f0 f1 nd ea).isSome = true ↔
      0 ≤ num_samples fs duration ∧ duration ≠ 0 := by
  by_cases h : num_samples fs duration < 0 ∨ duration = 0
  · rw [construct, if_pos h]
    constructor
    · intro hc
      simp at hc
    · intro hc
      rcases h with h | h
      · exact absurd hc.1 (by omega)
      · exact absurd h hc.2
  · rw [construct, if_neg h]
    push_neg at h
    constructor
    · intro _
      exact ⟨by omega, h.2⟩
    · intro _
      rfl

/-- Counterexample to C5 as stated: `sample_rate = 0` is in the claim's
invalid set, yet construction succeeds (no `InvalidParameters` is raised: the
code has no validation, `np.linspace(0, duration, 0)` is legal and the chirp
phase divides by the non-zero `duration = 1`). -/
theorem construct_counterexample :
    (0 : ℚ) ≤ 0 ∧ (construct 0 1 20000 20000 36 9).isSome = true := by
  refine ⟨le_refl 0, ?_⟩
  have h : num_samples 0 1 = 0 := by simp [num_samples, pyInt]
  rw [construct, if_neg (by rw [h]; norm_num)]
  rfl

/-! ## C4: generated signal length -/

theorem linspace_length {α : Type*} [Field α] (a b : α) (n : ℕ) :
    (linspace a b n).length = n := by
  by_cases h : n = 1 <;> simp [linspace, h]

/-- C4 (corrected).  For positive `fs` and `duration`, the generated chirp
signal has length `int(fs * duration)`, i.e. `fs * duration` truncated
(`⌊fs * duration⌋` on this positive domain) — not rounded to nearest. -/
theorem generate_chirp_signal_length (fs duration f0 f1 : ℚ)
    (hfs : 0 < fs) (hd : 0 < duration) :
    (generate_chirp_signal fs duration f0 f1).length = (⌊fs * duration⌋).toNat := by
  have h : num_samples fs duration = ⌊fs * duration⌋ := by
    simp [num_samples, pyInt, le_of_lt (mul_pos hfs hd)]
  rw [generate_chirp_signal, List.length_map, linspace_length, h]

/-- Counterexample to C4 as stated: at `fs = 3`, `duration = 1/2` (valid
parameters) the signal length is `int(1.5) = 1`, while the claim's
`round(1.5) = 2`. -/
theorem generate_chirp_signal_length_counterexample :
    (0 : ℚ) < 3 ∧ (0 : ℚ) < 1 / 2 ∧
    (generate_chirp_signal 3 (1 / 2) 100 100).length ≠ (round ((3 : ℚ) * (1 / 2))).toNat := by
  refine ⟨by norm_num, by norm_num, ?_⟩
  have h : num_samples 3 (1 / 2) = 1 := by
    simp only [num_samples, pyInt]
    norm_num
  have hr : round ((3 : ℚ) * (1 / 2)) = 2 := by
    rw [round_eq]
    norm_num
  rw [generate_chirp_signal, List.length_map, linspace_length, h, hr]
  decide

/-- Witness for C4 at `fs = 3`, `duration = 1/2`. -/
theorem generate_chirp_signal_length_witness :
    (generate_chirp_signal 3 (1 / 2) 100 100).length = (⌊(3 : ℚ) * (1 / 2)⌋).toNat :=
  generate_chirp_signal_length 3 (1 / 2) 100 100 (by norm_num) (by norm_num)

/-! ## C9: angle grids -/

theorem linspaceEF_getD {α : Type*} [Field α] (a b : α) (n i : ℕ) (h : i < n) :
    (linspaceEF a b n).getD i 0 = a + (b - a) * i / n := by
  rw [linspaceEF, List.getD_eq_getElem _ _ (by simpa using h)]
  simp

theorem linspace_getD {α : Type*} [Field α] (a b : α) (n i : ℕ) (hn : n ≠ 1) (h : i < n) :
    (linspace a b n).getD i 0 = a + (b - a) * i / ((n : α) - 1) := by
  rw [linspace, if_neg hn, List.getD_eq_getElem _ _ (by simpa using h)]
  simp

/-- C9 (corrected).  For `N ≥ 1` horizontal directions and `M ≥ 2` vertical
angles: the horizontal grid has `N` values `2π·i/N`, evenly spaced
(consecutive difference `2π/N`) inside `[0, 2π)` with `2π` excluded; the
vertical grid has `M` values evenly spaced (consecutive difference
`(π/2)/(M-1)`) from `-π/4` to `π/4`, both endpoints included.  (For `M = 1`
the upper endpoint is not attained, see the counterexample.) -/
theorem angle_grid_spec (n m : ℕ) (hn : 1 ≤ n) (hm : 2 ≤ m) :
    (horizontal_angles n).length = n ∧
    (∀ i, i < n → (horizontal_angles n).getD i 0 = 2 * Real.pi * i / n) ∧
    (∀ i, i < n → 0 ≤ (horizontal_angles n).getD i 0 ∧
      (horizontal_angles n).getD i 0 < 2 * Real.pi) ∧
    (∀ i, i + 1 < n → (horizontal_angles n).getD (i + 1) 0 -
      (horizontal_angles n).getD i 0 = 2 * Real.pi / n) ∧
    (vertical_angles m).length = m ∧
    (vertical_angles m).getD 0 0 = -(Real.pi / 4) ∧
    (vertical_angles m).getD (m - 1) 0 = Real.pi / 4 ∧
    (∀ i, i + 1 < m → (vertical_angles m).getD (i + 1) 0 -
      (vertical_angles m).getD i 0 = (Real.pi / 2) / ((m : ℝ) - 1)) := by
  have hn0 : (0 : ℝ) < n := by exact_mod_cast hn
  have hm1 : m ≠ 1 := by omega
  have hm0 : (m : ℝ) - 1 ≠ 0 := by
    have : (2 : ℝ) ≤ m := by exact_mod_cast hm
    intro h
    linarith
  have hh : ∀ i, i < n → (horizontal_angles n).getD i 0 = 2 * Real.pi * i / n := by
    intro i hi
    rw [horizontal_angles, linspaceEF_getD _ _ _ _ hi]
    ring
  have hv : ∀ i, i < m → (vertical_angles m).getD i 0 =
      -(Real.pi / 4) + (Real.pi / 2) * i / ((m : ℝ) - 1) := by
    intro i hi
    rw [vertical_angles, linspace_getD _ _ _ _ hm1 hi]
    ring
  refine ⟨by simp [horizontal_angles, linspaceEF], hh, ?_, ?_, by simp [vertical_angles, linspace_length], ?_, ?_, ?_⟩
  · intro i hi
    rw [hh i hi]
    constructor
    · positivity
    · rw [div_lt_iff hn0]
      have hcast : (i : ℝ) < n := by exact_mod_cast hi
      nlinarith [Real.pi_pos]
  · intro i hi
    rw [hh _ hi, hh _ (by omega)]
    push_cast
    field_simp
    ring
  · rw [hv 0 (by omega)]
    simp
  · rw [hv (m - 1) (by omega)]
    have hcast : ((m - 1 : ℕ) : ℝ) = (m : ℝ) - 1 := by
      push_cast [Nat.cast_sub (by omega : 1 ≤ m)]
      ring
    rw [hcast]
    field_simp
    ring
  · intro i hi
    rw [hv _ hi, hv _ (by omega)]
    push_cast
    field_simp
    ring

/-- Counterexample to C9 as stated: with `M = 1` (allowed by the claim's
`M ≥ 1`) the vertical grid is the single angle `-π/4`; the upper endpoint
`π/4` is not included. -/
theorem vertical_angles_counterexample :
    1 ≤ 1 ∧ Real.pi / 4 ∉ vertical_angles 1 := by
  refine ⟨le_refl 1, ?_⟩
  have h1 : vertical_angles 1 = [-(Real.pi / 4)] := by simp [vertical_angles, linspace]
  rw [h1, List.mem_singleton]
  intro h
  nlinarith [Real.pi_pos]

/-- Witness for C9 at `N = 2`, `M = 2`: the last vertical angle is `π/4`. -/
theorem angle_grid_spec_witness :
    (vertical_angles 2).getD (2 - 1) 0 = Real.pi / 4 :=
  (angle_grid_spec 2 2 (by norm_num) (by norm_num)).2.2.2.2.2.2.1

/-! ## C1: the retained correlation sequence -/

/-- C1 (corrected).  When the recording has the same length as the (non-empty)
reference — which is what `sd.playrec` produces, one captured frame per played
frame — the retained suffix `corr[len(corr) // 2 :]` is exactly the
correlation at lag `0` followed by the correlations at all positive lags
`1, …, len(recording) - 1`, with no negative-lag value retained. -/
theorem correlateFull_length (a v : List ℚ) :
    (correlateFull a v).length = a.length + v.length - 1 := by
  simp [correlateFull]

theorem correlateFull_getElem (a v : List ℚ) (i : ℕ) (h : i < (correlateFull a v).length) :
    (correlateFull a v)[i] = corrLag a v ((i : ℤ) - ((v.length : ℤ) - 1)) := by
  simp [correlateFull]

theorem retained_nonneg_lags (resp sig : List ℚ) (hlen : resp.length = sig.length)
    (hsig : sig ≠ []) :
    retained resp sig = (List.range resp.length).map (fun k : ℕ => corrLag resp sig (k : ℤ)) := by
  have hpos : 1 ≤ sig.length := List.length_pos.mpr hsig
  apply List.ext_getElem
  · simp only [retained, List.length_drop, correlateFull_length, List.length_map,
      List.length_range, hlen]
    omega
  · intro k h1 h2
    have hk : (resp.length + sig.length - 1) / 2 + k < (correlateFull resp sig).length := by
      simp only [retained, List.length_drop] at h1
      omega
    simp only [retained]
    rw [List.getElem_drop, correlateFull_getElem _ _ _ hk]
    rw [List.getElem_map, List.getElem_range]
    congr 1
    have hs : (resp.length + sig.length - 1) / 2 = sig.length - 1 := by omega
    rw [hs]
    have h1' : ((sig.length - 1 + k : ℕ) : ℤ) = (sig.length : ℤ) - 1 + k := by
      push_cast [Nat.cast_sub hpos]
      ring
    rw [h1']
    ring

/-- Counterexample to C1 as stated: for recording `[0, 0, 1]` and non-empty
reference `[1]`, the full correlation has length 3 and the retained suffix
starts at index `3 // 2 = 1` — it has only 2 entries, so it cannot be the
lag-0 value followed by both positive-lag values (3 entries); the lag-0
value is discarded. -/
theorem retained_counterexample :
    ([1] : List ℚ) ≠ [] ∧
    retained [0, 0, 1] [1] ≠ (List.range ([0, 0, 1] : List ℚ).length).map
      (fun k : ℕ => corrLag [0, 0, 1] [1] (k : ℤ)) := by
  refine ⟨by simp, ?_⟩
  intro h
  have hl := congrArg List.length h
  simp [retained, correlateFull] at hl

/-- Witness for C1 with recording `[1, 2]` and reference `[3, 4]`. -/
theorem retained_nonneg_lags_witness :
    ([1, 2] : List ℚ).length = ([3, 4] : List ℚ).length ∧ ([3, 4] : List ℚ) ≠ [] ∧
    retained [1, 2] [3, 4] = (List.range ([1, 2] : List ℚ).length).map
      (fun k : ℕ => corrLag [1, 2] [3, 4] (k : ℤ)) :=
  ⟨by simp, by simp, retained_nonneg_lags [1, 2] [3, 4] (by simp) (by simp)⟩

/-! ## C3: error behaviour of range estimation -/

theorem getD_eq_zero_of_all_zero (x : List ℚ) (hx : ∀ q ∈ x, q = 0) (j : ℕ) :
    x.getD j 0 = 0 := by
  by_cases hj : j < x.length
  · rw [List.getD_eq_getElem _ _ hj]
    exact hx _ (List.getElem_mem hj)
  · exact List.getD_eq_default _ _ (by omega)

theorem localMaximaAux_all_zero (x : List ℚ) (iMax : ℕ) (hx : ∀ q ∈ x, q = 0) :
    ∀ fuel i, localMaximaAux x iMax fuel i = [] := by
  intro fuel
  induction fuel with
  | zero => intro i; rfl
  | succ fuel ih =>
    intro i
    simp only [localMaximaAux, getD_eq_zero_of_all_zero x hx, lt_self_iff_false,
      if_false, ih, ite_self]

theorem find_peaks_all_zero (x : List ℚ) (hx : ∀ q ∈ x, q = 0) (h : ℚ) :
    find_peaks x h = [] := by
  rw [find_peaks, localMaxima, localMaximaAux_all_zero x _ hx]
  rfl

/-- C3 (corrected).  Range estimation fails exactly when the reference signal
or the recording is empty (`np.correlate` raises on either); with both
non-empty, finding zero peaks — in particular on an all-zero retained
correlation sequence — is not an error: the result is the empty sequence of
range estimates. -/
theorem process_signal_errors (sig resp : List ℚ) (fs : ℚ) :
    (process_signal sig fs resp = none ↔ sig = [] ∨ resp = []) ∧
    (sig ≠ [] → resp ≠ [] → (∀ q ∈ retained resp sig, q = 0) →
      process_signal sig fs resp = some []) := by
  constructor
  · have hguard : process_signal sig fs resp = none ↔ (resp.isEmpty || sig.isEmpty) = true := by
      by_cases h : (resp.isEmpty || sig.isEmpty) = true
      · simp [process_signal, h]
      · simp [process_signal, h]
    rw [hguard]
    simp [List.isEmpty_iff, or_comm]
  · intro hs hr hz
    rw [process_signal_eq sig resp fs hs hr, find_peaks_all_zero _ hz]
    rfl

/-- Counterexample to C3 as stated: an empty recording with the non-empty
reference `[1]` also fails (the claim's "if and only if the reference has
zero length" does not hold). -/
theorem process_signal_errors_counterexample :
    ([1] : List ℚ) ≠ [] ∧ process_signal [1] 1 [] = none := by
  refine ⟨by simp, ?_⟩
  rfl

/-- Witness for C3: reference `[1]`, all-zero recording `[0, 0]` gives the
empty range sequence without error. -/
theorem process_signal_errors_witness :
    process_signal [1] 1 [0, 0] = some [] := by
  have hz : retained [0, 0] [1] = [0] := by
    norm_num [retained, correlateFull, corrLag, getZ, List.range_succ]
  exact (process_signal_errors [1] [0, 0] 1).2 (by simp) (by simp)
    (by rw [hz]; simp)

/-! ## C2: peak detection and range computation -/

theorem plateauAhead_stop (x : List ℚ) (v : ℚ) (iMax : ℕ) :
    ∀ fuel j, ¬(j < iMax ∧ x.getD j 0 = v) → plateauAhead x v iMax fuel j = j := by
  intro fuel j h
  cases fuel with
  | zero => rfl
  | succ fuel => simp only [plateauAhead, if_neg h]

/-- On a sequence with no two adjacent equal samples, scipy's local-maxima
loop returns exactly the interior indices that are strict local maxima, in
ascending order. -/
theorem localMaximaAux_eq_filter (x : List ℚ)
    (hne : ∀ j, j + 1 < x.length → x.getD j 0 ≠ x.getD (j + 1) 0) :
    ∀ fuel i, 1 ≤ i → x.length - 1 ≤ i + fuel →
      localMaximaAux x (x.length - 1) fuel i =
        (List.range' i (x.length - 1 - i)).filter
          (fun k => decide (x.getD (k - 1) 0 < x.getD k 0) &&
                    decide (x.getD (k + 1) 0 < x.getD k 0)) := by
  intro fuel
  induction fuel with
  | zero =>
    intro i h1 h2
    rw [show x.length - 1 - i = 0 from by omega]
    rfl
  | succ fuel ih =>
    intro i h1 h2
    by_cases hi : i < x.length - 1
    case neg =>
      rw [show x.length - 1 - i = 0 from by omega]
      simp only [localMaximaAux, if_neg hi]
      rfl
    case pos =>
      have hiA : plateauAhead x (x.getD i 0) (x.length - 1) (x.length - 1) (i + 1) = i + 1 := by
        apply plateauAhead_stop
        rintro ⟨hj, heq⟩
        exact hne i (by omega) heq.symm
      rw [show x.length - 1 - i = (x.length - 1 - (i + 1)) + 1 from by omega,
        List.range'_succ]
      simp only [localMaximaAux, if_pos hi, hiA]
      by_cases hb1 : x.getD (i - 1) 0 < x.getD i 0
      · by_cases hb2 : x.getD (i + 1) 0 < x.getD i 0
        · rw [if_pos hb1, if_pos hb2]
          rw [show (i + (i + 1 - 1)) / 2 = i from by omega]
          rw [List.filter_cons_of_pos
            (by simp only [Bool.and_eq_true, decide_eq_true_eq]; exact ⟨hb1, hb2⟩)]
          congr 1
          rw [ih (i + 2) (by omega) (by omega)]
          by_cases hc : i + 1 < x.length - 1
          · rw [show x.length - 1 - (i + 1) = (x.length - 1 - (i + 2)) + 1 from by omega,
              List.range'_succ]
            have hnotpeak : (decide (x.getD (i + 1 - 1) 0 < x.getD (i + 1) 0) &&
                decide (x.getD (i + 1 + 1) 0 < x.getD (i + 1) 0)) = false := by
              have hf : ¬(x.getD (i + 1 - 1) 0 < x.getD (i + 1) 0) := by
                rw [Nat.add_sub_cancel]
                exact lt_asymm hb2
              rw [decide_eq_false hf, Bool.false_and]
            simp only [List.filter_cons, hnotpeak, Bool.false_eq_true, if_false]
          · rw [show x.length - 1 - (i + 1) = 0 from by omega,
              show x.length - 1 - (i + 2) = 0 from by omega]
            rfl
        · rw [if_pos hb1, if_neg hb2]
          rw [ih (i + 1) (by omega) (by omega)]
          rw [List.filter_cons_of_neg
            (by simp only [Bool.and_eq_true, decide_eq_true_eq, not_and]; exact fun _ => hb2)]
      · rw [if_neg hb1]
        rw [ih (i + 1) (by omega) (by omega)]
        rw [List.filter_cons_of_neg
          (by simp only [Bool.and_eq_true, decide_eq_true_eq, not_and]
              exact fun h => absurd h hb1)]

/-- The filter `specPeaks` over the full index range equals the same filter restricted to
the interior segment `[1, len - 2]` (the boundary conditions of the claim
become the segment bounds). -/
theorem specPeaks_eq_segment (x : List ℚ) (h : ℚ) :
    specPeaks x h = (List.range' 1 (x.length - 1 - 1)).filter
      (fun k => decide (h ≤ x.getD k 0) &&
        (decide (x.getD (k - 1) 0 < x.getD k 0) && decide (x.getD (k + 1) 0 < x.getD k 0))) := by
  rcases hn : x.length with _ | n
  · simp [specPeaks, hn]
  rcases hn' : n with _ | m
  · simp [specPeaks, hn, hn']
  subst hn'
  rw [specPeaks, hn]
  have e1 : List.range (m + 1 + 1) = List.range' 0 1 ++ (List.range' 1 m ++ List.range' (1 + m) 1) := by
    rw [List.range_eq_range']
    have h2 : List.range' 1 m ++ List.range' (1 + 1 * m) 1 = List.range' 1 (1 + m) :=
      List.range'_append 1 m 1 1
    have h1 : List.range' 0 1 ++ List.range' (0 + 1 * 1) (1 + m) = List.range' 0 (1 + m + 1) :=
      List.range'_append 0 1 (1 + m) 1
    rw [show (1 : ℕ) + 1 * m = 1 + m from by omega] at h2
    rw [show (0 : ℕ) + 1 * 1 = 1 from by omega] at h1
    rw [show m + 1 + 1 = 1 + m + 1 from by omega, ← h1, h2]
  rw [e1, List.filter_append, List.filter_append]
  have hfirst : (List.range' 0 1).filter (fun k =>
      decide (0 < k) && decide (k + 1 < m + 1 + 1) &&
      (decide (h ≤ x.getD k 0) &&
        (decide (x.getD (k - 1) 0 < x.getD k 0) && decide (x.getD (k + 1) 0 < x.getD k 0)))) = [] := by
    simp
  have hlast : (List.range' (1 + m) 1).filter (fun k =>
      decide (0 < k) && decide (k + 1 < m + 1 + 1) &&
      (decide (h ≤ x.getD k 0) &&
        (decide (x.getD (k - 1) 0 < x.getD k 0) && decide (x.getD (k + 1) 0 < x.getD k 0)))) = [] := by
    simp only [List.range'_one, List.filter_cons, List.filter_nil]
    rw [if_neg (by simp; omega)]
  rw [hfirst, hlast, List.nil_append, List.append_nil]
  rw [show m + 1 + 1 - 1 - 1 = m from by omega]
  apply List.filter_congr
  intro k hk
  have hk' : 1 ≤ k ∧ k < 1 + m := List.mem_range'_1.mp hk
  have hb1 : decide (0 < k) = true := by simp; omega
  have hb2 : decide (k + 1 < m + 1 + 1) = true := by simp; omega
  rw [hb1, hb2]
  simp

/-- On a retained sequence with no two adjacent equal samples, scipy's
`find_peaks` with height threshold `h` reports exactly the spec's peaks
(with the height condition read as `≥ h`). -/
theorem find_peaks_eq_specPeaks (x : List ℚ) (h : ℚ)
    (hne : ∀ j, j + 1 < x.length → x.getD j 0 ≠ x.getD (j + 1) 0) :
    find_peaks x h = specPeaks x h := by
  rw [find_peaks, localMaxima,
    localMaximaAux_eq_filter x hne x.length 1 le_rfl (by omega),
    List.filter_filter, specPeaks_eq_segment]

/-- C2 (corrected).  For a non-empty recording and reference whose retained
correlation sequence has no two adjacent equal values, `process_signal`
reports exactly the lag indices `k` that are strict local maxima of the
retained sequence, are not its first or last index, and whose value is at
least (`≥`, not strictly above) `0.1` times the maximum of the retained
sequence; each peak at lag `k` yields the range `(k / fs) * 343 / 2`, and the
peak indices (hence ranges) are in ascending lag order.  (`npMax` is the
maximum of the retained sequence by `npMax_spec`.) -/
theorem process_signal_peaks (sig resp : List ℚ) (fs : ℚ)
    (hs : sig ≠ []) (hr : resp ≠ [])
    (hne : ∀ j, j + 1 < (retained resp sig).length →
      (retained resp sig).getD j 0 ≠ (retained resp sig).getD (j + 1) 0) :
    process_signal sig fs resp =
      some ((specPeaks (retained resp sig) ((1 / 10) * npMax (retained resp sig))).map
        (fun k : ℕ => ((k : ℚ) / fs) * 343 / 2)) ∧
    (specPeaks (retained resp sig) ((1 / 10) * npMax (retained resp sig))).Pairwise (· < ·) := by
  constructor
  · rw [process_signal_eq sig resp fs hs hr, find_peaks_eq_specPeaks _ _ hne]
  · rw [specPeaks]
    exact List.Pairwise.filter _ (List.pairwise_lt_range _)

/-- Counterexample to C2 as stated: reference `[1]`, `fs = 1`, recording with
retained sequence `[0, 3/10, 0, 3, 3, 0]` (maximum `3`, threshold `3/10`).
The code reports two peaks — lag `1`, whose value equals the threshold
without exceeding it (scipy keeps peaks with value `≥` the height), and lag
`3`, the midpoint of the plateau `3, 3`, which is not a strict local maximum
(its right neighbour is equal, not smaller).  Under the claim's reading
(strict maxima, value strictly above threshold) no peak qualifies. -/
theorem process_signal_peaks_counterexample :
    process_signal [1] 1 [0, 0, 0, 0, 0, 0, 0, 3 / 10, 0, 3, 3, 0] =
      some [343 / 2, 1029 / 2] ∧
    (specPeaksStrict (retained [0, 0, 0, 0, 0, 0, 0, 3 / 10, 0, 3, 3, 0] [1])
        ((1 / 10) * npMax (retained [0, 0, 0, 0, 0, 0, 0, 3 / 10, 0, 3, 3, 0] [1]))).map
      (fun k : ℕ => ((k : ℚ) / 1) * 343 / 2) = [] := by
  have hret : retained [0, 0, 0, 0, 0, 0, 0, 3 / 10, 0, 3, 3, 0] [1] =
      [0, 3 / 10, 0, 3, 3, 0] := by
    norm_num [retained, correlateFull, corrLag, getZ, List.range_succ]
  constructor
  · rw [process_signal_eq _ _ _ (by simp) (by simp), hret]
    norm_num [find_peaks, localMaxima, localMaximaAux, plateauAhead, npMax]
  · rw [hret]
    norm_num [specPeaksStrict, npMax, List.range_succ]

/-- Witness for C2: reference `[1]`, `fs = 1`, recording `[0,0,0,0,1,0]`
(retained sequence `[0, 1, 0]`, adjacent values all distinct). -/
theorem process_signal_peaks_witness :
    process_signal [1] 1 [0, 0, 0, 0, 1, 0] =
      some ((specPeaks (retained [0, 0, 0, 0, 1, 0] [1])
          ((1 / 10) * npMax (retained [0, 0, 0, 0, 1, 0] [1]))).map
        (fun k : ℕ => ((k : ℚ) / 1) * 343 / 2)) ∧
    (specPeaks (retained [0, 0, 0, 0, 1, 0] [1])
        ((1 / 10) * npMax (retained [0, 0, 0, 0, 1, 0] [1]))).Pairwise (· < ·) := by
  apply process_signal_peaks [1] [0, 0, 0, 0, 1, 0] 1 (by simp) (by simp)
  intro j hj
  have hret : retained [0, 0, 0, 0, 1, 0] [1] = [0, 1, 0] := by
    norm_num [retained, correlateFull, corrLag, getZ, List.range_succ]
  rw [hret] at hj ⊢
  simp only [List.length_cons, List.length_nil] at hj
  have hj2 : j = 0 ∨ j = 1 := by omega
  rcases hj2 with rfl | rfl
  · norm_num
  · norm_num

/-! ## C6: scan traversal order -/

theorem scanPairs_length {α : Type*} (vA hA : List α) :
    (scanPairs vA hA).length = vA.length * hA.length := by
  induction vA with
  | nil => simp [scanPairs]
  | cons v vt ih =>
    simp only [scanPairs, List.flatMap_cons, List.length_append, List.length_map,
      List.length_cons] at ih ⊢
    rw [ih]
    ring

theorem scanPairs_getElem {α : Type*} (vA hA : List α) (j i : ℕ) (h v : α)
    (hh : hA[i]? = some h) (hv : vA[j]? = some v) :
    (scanPairs vA hA)[j * hA.length + i]? = some (h, v) := by
  induction vA generalizing j with
  | nil => simp at hv
  | cons v₀ vt ih =>
    cases j with
    | zero =>
      rw [List.getElem?_cons_zero] at hv
      obtain rfl : v₀ = v := by injection hv
      have hi : i < hA.length := by
        by_contra hcon
        rw [List.getElem?_eq_none (by omega)] at hh
        cases hh
      rw [scanPairs, List.flatMap_cons]
      rw [show 0 * hA.length + i = i from by omega]
      rw [List.getElem?_append_left (by simpa using hi), List.getElem?_map, hh]
      rfl
    | succ j =>
      rw [List.getElem?_cons_succ] at hv
      rw [scanPairs, List.flatMap_cons]
      rw [show (j + 1) * hA.length + i =
        (hA.map (fun h => (h, v₀))).length + (j * hA.length + i) from by
          rw [List.length_map]; ring]
      rw [List.getElem?_append_right (Nat.le_add_right _ _), Nat.add_sub_cancel_left]
      exact ih j hv

theorem collect_go_spec {α : Type*} (sig : List ℚ) (fs : ℚ) (record : ℕ → List ℚ)
    (hs : sig ≠ []) (hr : ∀ n, record n ≠ []) :
    ∀ (ps : List (α × α)) (n : ℕ),
      ∃ L, collect_go sig fs record ps n = some L ∧ L.length = ps.length ∧
        ∀ k p, ps[k]? = some p →
          L[k]? = some ((process_signal sig fs (record (n + k))).getD [], p.1, p.2) := by
  intro ps
  induction ps with
  | nil =>
    intro n
    exact ⟨[], rfl, rfl, by intro k p hk; simp at hk⟩
  | cons p rest ih =>
    intro n
    obtain ⟨L, hL, hlen, hidx⟩ := ih (n + 1)
    obtain ⟨d, hd⟩ : ∃ d, process_signal sig fs (record n) = some d :=
      ⟨_, process_signal_eq sig (record n) fs hs (hr n)⟩
    have hgetD : (process_signal sig fs (record n)).getD [] = d := by rw [hd]; rfl
    refine ⟨(d, p.1, p.2) :: L, ?_, by simp [hlen], ?_⟩
    · rw [collect_go, hd, hL]
      rfl
    · intro k q hk
      cases k with
      | zero =>
        rw [List.getElem?_cons_zero] at hk
        obtain rfl : p = q := by injection hk
        rw [List.getElem?_cons_zero, Nat.add_zero, hgetD]
      | succ k =>
        rw [List.getElem?_cons_succ] at hk
        rw [List.getElem?_cons_succ, hidx k q hk]
        rw [show n + (k + 1) = n + 1 + k from by omega]

/-- C6 (confirmed).  For every angle grid, `collect_data` performs one
`record_response`/`process_signal` round per angle pair and appends exactly
one `(distances, h_angle, v_angle)` sample per visited pair, visiting the
vertical angles as the outer loop and the horizontal angles as the inner
loop, each in stored order: the resulting sequence has one entry per pair,
and its entry at position `j * N + i` (with `N` the horizontal count) holds
the angles `(hA[i], vA[j])` together with the ranges computed from the
`(j * N + i)`-th recording. -/
theorem collect_data_traversal {α : Type*} (sig : List ℚ) (fs : ℚ) (vA hA : List α)
    (record : ℕ → List ℚ) (hs : sig ≠ []) (hr : ∀ n, record n ≠ []) :
    ∃ L, collect_data sig fs vA hA record = some L ∧
      L.length = vA.length * hA.length ∧
      ∀ j i h v, hA[i]? = some h → vA[j]? = some v →
        L[j * hA.length + i]? =
          some ((process_signal sig fs (record (j * hA.length + i))).getD [], h, v) := by
  obtain ⟨L, hL, hlen, hidx⟩ := collect_go_spec sig fs record hs hr (scanPairs vA hA) 0
  refine ⟨L, hL, by rw [hlen, scanPairs_length], ?_⟩
  intro j i h v hh hv
  rw [hidx (j * hA.length + i) (h, v) (scanPairs_getElem vA hA j i h v hh hv),
    Nat.zero_add]

/-- Witness for C6 on a one-by-one grid. -/
theorem collect_data_traversal_witness :
    ∃ L, collect_data [1] 1 [(5 : ℚ)] [(7 : ℚ)] (fun _ => [1]) = some L ∧
      L.length = [(5 : ℚ)].length * [(7 : ℚ)].length ∧
      ∀ j i h v, [(7 : ℚ)][i]? = some h → [(5 : ℚ)][j]? = some v →
        L[j * [(7 : ℚ)].length + i]? =
          some ((process_signal [1] 1
            ((fun _ : ℕ => ([1] : List ℚ)) (j * [(7 : ℚ)].length + i))).getD [], h, v) :=
  collect_data_traversal [1] 1 [(5 : ℚ)] [(7 : ℚ)] (fun _ => [1])
    (by simp) (fun n => by simp)

end SVMS
